import Mathlib

/-!
Verification development for the epi-clock data-collection core.

The embedding models, from the Python source:
  * `SampleTable`         — a pandas DataFrame as used by the collector: an
    index (list of labels), a first column holding identifiers, and the
    remaining named numeric columns (`geo_collector.py`).
  * `combineMethylationData` — `GEOCollector._combine_methylation_data`.
  * `fetchDataset`        — `GEOCollector.fetch_dataset` as a state machine
    over a per-accession cache file.
  * `createOverlapMatrix`, `analyzeCpgOverlap` —
    `MetaAnalyzer._create_overlap_matrix` / `_analyze_cpg_overlap`.
  * `summarizeDataset`    — the JSON summary construction in
    `main.collect_geo_data`.
Fallible Python operations (KeyError from `.loc` / column selection,
ZeroDivisionError in the Jaccard quotient) are modelled with `Except Unit`;
a Python function returning `None` is modelled with `Option`.
-/

deriving instance DecidableEq for Except

namespace EpiClock

/-- A per-sample measurement table, mirroring how the collector uses a
pandas DataFrame: `index` is the DataFrame index (`matrix.index`),
`idColName` and `ids` are the name and values of the first column
(`matrix.columns[0]`), and `valCols` are the remaining columns in order,
each a name with its values. Numeric values are modelled as rationals. -/
structure SampleTable where
  index : List String
  idColName : String
  ids : List String
  valCols : List (String × List ℚ)
  deriving DecidableEq, Repr

/-- The full list of column names of the table (`matrix.columns`). -/
def SampleTable.columns (t : SampleTable) : List String :=
  t.idColName :: t.valCols.map Prod.fst

/-- The identifier set the combiner attributes to a table: since a
DataFrame always has an `index` attribute, `set(matrix.index)` is taken
(the `set(matrix.iloc[:, 0])` branch of line 133 is dead for DataFrames). -/
def SampleTable.idxSet (t : SampleTable) : Finset String :=
  t.index.toFinset

/-- Column selection of `matrix.set_index(matrix.columns[0])[name]`: the
first column has become the index, so `name` is looked up among the
remaining columns; a missing name raises (KeyError), modelled as `.error`. -/
def getCol (t : SampleTable) (name : String) : Except Unit (List ℚ) :=
  match t.valCols.find? (fun c => c.1 = name) with
  | some c => Except.ok c.2
  | none => Except.error ()

/-- `matrix.set_index(matrix.columns[0]).iloc[:, 0]`: the first remaining
column, i.e. the second column of the original table; an empty column list
raises (IndexError). -/
def secondCol (t : SampleTable) : Except Unit (List ℚ) :=
  match t.valCols with
  | [] => Except.error ()
  | c :: _ => Except.ok c.2

/-- Value-column selection of `_combine_methylation_data` lines 150–157:
prefer a column named "VALUE", then "Beta_value" (membership tested against
the full column list, as `in matrix.columns` does), else fall back to the
second column of the table. -/
def extractValues (t : SampleTable) : Except Unit (List ℚ) :=
  if "VALUE" ∈ t.columns then getCol t "VALUE"
  else if "Beta_value" ∈ t.columns then getCol t "Beta_value"
  else secondCol t

/-- `values.loc[id]` after `set_index(columns[0])`: look the identifier up
among the first-column values paired with the selected value column; a
label absent from that index raises (KeyError). -/
def lookupCol (pairs : List (String × ℚ)) (id : String) : Except Unit ℚ :=
  match pairs.find? (fun p => p.1 = id) with
  | some p => Except.ok p.2
  | none => Except.error ()

/-- The `common_cpgs` computation of lines 130–137: a Python set of labels
represented as a duplicate-free list — `dedup` of the first table's index,
filtered by membership in each later table's index. -/
def commonOf (matrices : List SampleTable) : List String :=
  match matrices with
  | [] => []
  | m :: rest =>
    rest.foldl (fun acc t => acc.filter (fun id => id ∈ t.index)) m.index.dedup

/-- The combined matrix: row labels plus one named value column per sample. -/
structure CombinedMatrix where
  rowIds : List String
  cols : List (String × List ℚ)
  deriving DecidableEq, Repr

/-- The loop body of lines 147–161 for the `i`-th table: select the value
column, re-index by the first column, and look every common identifier up,
yielding the named `sample_{i}` column. -/
def sampleColumn (common : List String) (p : ℕ × SampleTable) :
    Except Unit (String × List ℚ) := do
  let vals ← extractValues p.2
  let pairs := p.2.ids.zip vals
  let colVals ← common.mapM (lookupCol pairs)
  pure (String.append "sample_" (toString p.1), colVals)

/-- `GEOCollector._combine_methylation_data` (lines 125–163): intersect the
tables' index sets (a Python set of labels is represented as a
duplicate-free list: `dedup` of the first index, then filtered by
membership in each later index); return `none` for an empty input list or
an empty intersection; otherwise build one `sample_{i}` column per table by
looking every common identifier up in the table re-indexed by its first
column. A failed lookup or column selection propagates as an exception. -/
def combineMethylationData (matrices : List SampleTable) :
    Except Unit (Option CombinedMatrix) :=
  match matrices with
  | [] => Except.ok none
  | m :: rest =>
    let common := commonOf (m :: rest)
    if common.isEmpty then Except.ok none
    else do
      let cols ← ((m :: rest).enum).mapM (sampleColumn common)
      pure (some { rowIds := common, cols := cols })

/-- A sample-name paired with its optional measurement table, mirroring one
`(gsm_name, gsm)` item: `gsm.table` may be absent (`None`). -/
structure RemoteSample where
  name : String
  table : Option SampleTable
  deriving DecidableEq, Repr

/-- What the remote source returns for one accession: metadata fields plus
the per-sample tables (`GEOparse.get_GEO` result as used by the code). -/
structure RemoteDataset where
  title : String
  summary : String
  organism : String
  platform : String
  samples : List RemoteSample
  deriving DecidableEq, Repr

/-- The dataset dictionary built by `fetch_dataset`: metadata, the sample
names, and the optional combined methylation matrix. -/
structure DatasetRecord where
  accession : String
  title : String
  summary : String
  organism : String
  platform : String
  samples : List String
  methylation : Option CombinedMatrix
  deriving DecidableEq, Repr

/-- The filter of `fetch_dataset` line 76: a sample's table participates in
combining only if it has a column named "VALUE" or "Beta_value". -/
def hasValueColumn (t : SampleTable) : Prop :=
  "VALUE" ∈ t.columns ∨ "Beta_value" ∈ t.columns

instance (t : SampleTable) : Decidable (hasValueColumn t) := by
  unfold hasValueColumn; infer_instance

/-- The `methylation_matrices` list accumulated in `fetch_dataset`
lines 63–77: tables that exist and pass the value-column filter. -/
def filteredMatrices (rd : RemoteDataset) : List SampleTable :=
  rd.samples.filterMap (fun s =>
    match s.table with
    | none => none
    | some t => if hasValueColumn t then some t else none)

/-- Building the dataset dictionary on the remote path of `fetch_dataset`
(lines 48–85): metadata, sample list, and — only when the filtered matrix
list is non-empty — the combined methylation data. An exception raised by
the combiner propagates (it is caught by the caller's `except`). -/
def buildRecord (accession : String) (rd : RemoteDataset) :
    Except Unit DatasetRecord := do
  let matrices := filteredMatrices rd
  let methylation ←
    if matrices.isEmpty then pure none else combineMethylationData matrices
  pure { accession := accession, title := rd.title, summary := rd.summary,
         organism := rd.organism, platform := rd.platform,
         samples := rd.samples.map RemoteSample.name,
         methylation := methylation }

/-- The per-accession cache file: absent, present but not deserializable
(`pickle.load` raises), or holding a stored record. -/
inductive CacheFile where
  | absent : CacheFile
  | corrupt : CacheFile
  | stored : DatasetRecord → CacheFile
  deriving DecidableEq, Repr

/-- The environment of one `fetch_dataset` call: what the remote source
would return (`none` models a fetch error) and whether the cache write
succeeds (`pickle.dump` may raise, caught at lines 93–94). -/
structure FetchEnv where
  remote : Option RemoteDataset
  writeOk : Bool
  deriving DecidableEq, Repr

/-- Outcome of one `fetch_dataset` call: the returned value, the cache file
afterwards, and whether the remote source was contacted. -/
structure FetchResult where
  result : Option DatasetRecord
  cacheAfter : CacheFile
  remoteCalled : Bool
  deriving DecidableEq, Repr

/-- The remote path of `fetch_dataset` (lines 44–100): a remote error or an
exception while building the record returns `None` and leaves the cache
unchanged; otherwise the record is written to the cache when the write
succeeds and returned either way. -/
def remoteFetch (accession : String) (env : FetchEnv) (cache : CacheFile) :
    FetchResult :=
  match env.remote with
  | none => ⟨none, cache, true⟩
  | some rd =>
    match buildRecord accession rd with
    | Except.error _ => ⟨none, cache, true⟩
    | Except.ok r =>
      ⟨some r, if env.writeOk then CacheFile.stored r else cache, true⟩

/-- `GEOCollector.fetch_dataset` (lines 22–100): a stored cache entry that
deserializes is returned as-is with no remote request and no freshness
check; an absent or corrupt cache entry falls through to the remote path
(a corrupt entry's read error is caught at lines 41–42). -/
def fetchDataset (accession : String) (env : FetchEnv) (cache : CacheFile) :
    FetchResult :=
  match cache with
  | CacheFile.stored r => ⟨some r, CacheFile.stored r, false⟩
  | _ => remoteFetch accession env cache

/-- One step of the cache-write sequence at lines 90–91:
`open(cache_path, 'wb')` truncates the cache file in place (an interrupted
write leaves an empty or incomplete pickle, i.e. a corrupt file), then
`pickle.dump` writes the record's bytes. -/
inductive PutStep where
  | truncate : PutStep
  | writeContent : DatasetRecord → PutStep
  deriving DecidableEq, Repr

/-- Effect of one write step on the cache file. -/
def applyStep : CacheFile → PutStep → CacheFile
  | _, PutStep.truncate => CacheFile.corrupt
  | _, PutStep.writeContent r => CacheFile.stored r

/-- Run a sequence of write steps. -/
def runSteps (init : CacheFile) (ops : List PutStep) : CacheFile :=
  ops.foldl applyStep init

/-- The write sequence the code performs: truncate the cache file itself,
then write into it (no temporary file, no replace). -/
def codePutOps (r : DatasetRecord) : List PutStep :=
  [PutStep.truncate, PutStep.writeContent r]

/-- Atomicity of a write sequence: at every prefix (crash point) the cache
file is either still the initial state or already the new record. -/
def atomicPut (ops : List PutStep) (init : CacheFile) (r : DatasetRecord) :
    Prop :=
  ∀ k, k ≤ ops.length →
    runSteps init (ops.take k) = init ∨
    runSteps init (ops.take k) = CacheFile.stored r

/-- `round(x, 3)` of line 225, modelled on exact rationals as
round-to-nearest (half up) at three decimal places. -/
def round3 (q : ℚ) : ℚ :=
  ((⌊q * 1000 + 1 / 2⌋ : ℤ) : ℚ) / 1000

/-- The Jaccard quotient of line 224:
`len(set1 ∩ set2) / len(set1 ∪ set2)`. Python division raises
ZeroDivisionError when the union is empty, modelled as `.error`. -/
def jaccard (s1 s2 : Finset String) : Except Unit ℚ :=
  if s1 ∪ s2 = ∅ then Except.error ()
  else Except.ok (((s1 ∩ s2).card : ℚ) / ((s1 ∪ s2).card : ℚ))

/-- One entry of the overlap matrix (lines 218–225): `1.0` on the diagonal
(positional `i == j`), the Jaccard quotient otherwise, rounded either way. -/
def overlapEntry (p q : ℕ × (String × Finset String)) : Except Unit ℚ :=
  if p.1 = q.1 then Except.ok (round3 1)
  else (jaccard p.2.2 q.2.2).map round3

/-- One keyed cell of the overlap matrix (line 225): the column accession
paired with the rounded entry. -/
def overlapCell (p q : ℕ × (String × Finset String)) :
    Except Unit (String × ℚ) := do
  let v ← overlapEntry p q
  pure (q.2.1, v)

/-- One keyed row of the overlap matrix (lines 217–225): the row accession
paired with all its cells in dataset order. -/
def overlapRow (cpgData : List (String × Finset String))
    (p : ℕ × (String × Finset String)) :
    Except Unit (String × List (String × ℚ)) := do
  let row ← cpgData.enum.mapM (overlapCell p)
  pure (p.2.1, row)

/-- `MetaAnalyzer._create_overlap_matrix` (lines 210–227): the nested
accession-keyed dictionary, modelled as an association list in dataset
order (the accessions are pairwise distinct on the call path, coming from
a dictionary keyed by accession). A ZeroDivisionError propagates. -/
def createOverlapMatrix (cpgData : List (String × Finset String)) :
    Except Unit (List (String × List (String × ℚ))) :=
  cpgData.enum.mapM (overlapRow cpgData)

/-- Positional access into the nested overlap structure: the value at row
`i`, column `j`, ignoring the accession keys. -/
def entryAt (m : List (String × List (String × ℚ))) (i j : ℕ) : Option ℚ :=
  (m.get? i).bind (fun row => (row.2.get? j).map Prod.snd)

/-- `all_cpgs` of lines 183–185: the union of all identifier sets. -/
def allCpgsOf (cpgData : List (String × Finset String)) : Finset String :=
  cpgData.foldl (fun acc p => acc ∪ p.2) ∅

/-- `core_cpgs` of lines 188–190: the first set intersected with all
later ones (`∅` for an empty list, which line 180 rules out). -/
def coreOf (cpgData : List (String × Finset String)) : Finset String :=
  match cpgData with
  | [] => ∅
  | p :: rest => rest.foldl (fun acc q => acc ∩ q.2) p.2

/-- `others` for one accession (lines 195–198): the union of the sets of
every dataset whose accession differs. -/
def othersOf (cpgData : List (String × Finset String)) (acc : String) :
    Finset String :=
  cpgData.foldl (fun u p => if p.1 ≠ acc then u ∪ p.2 else u) ∅

/-- `dataset_specific` (lines 193–200): per dataset, the count of
identifiers appearing in no other dataset. -/
def datasetSpecific (cpgData : List (String × Finset String)) :
    List (String × ℕ) :=
  cpgData.map (fun p => (p.1, (p.2 \ othersOf cpgData p.1).card))

/-- The dictionary returned by `_analyze_cpg_overlap` when at least two
datasets qualify (lines 202–208). -/
structure OverlapReport where
  total_unique_cpgs : ℕ
  core_cpgs : ℕ
  dataset_specific_counts : List (String × ℕ)
  overlap_matrix : List (String × List (String × ℚ))
  deriving DecidableEq, Repr

/-- `MetaAnalyzer._analyze_cpg_overlap` (lines 178–208): fewer than two
qualifying datasets yield the empty dictionary (modelled `none`); otherwise
universe, core, per-dataset exclusive counts and the pairwise matrix are
assembled. An exception from the matrix construction propagates. -/
def analyzeCpgOverlap (cpgData : List (String × Finset String)) :
    Except Unit (Option OverlapReport) :=
  if cpgData.length < 2 then Except.ok none
  else do
    let m ← createOverlapMatrix cpgData
    pure (some { total_unique_cpgs := (allCpgsOf cpgData).card,
                 core_cpgs := (coreOf cpgData).card,
                 dataset_specific_counts := datasetSpecific cpgData,
                 overlap_matrix := m })

/-- One entry of the JSON summary document written by
`main.collect_geo_data` (lines 70–82). -/
structure DatasetSummaryJson where
  accession : String
  title : String
  summary : String
  organism : String
  platform : String
  n_samples : ℕ
  has_methylation_data : Bool
  deriving DecidableEq, Repr

/-- The truncation rule of `main.collect_geo_data` lines 73–77:
`data["summary"][:500] + "..."` when the summary exceeds 500 characters,
the summary unchanged otherwise. -/
def truncateSummary (s : String) : String :=
  if s.length > 500 then String.append (s.take 500) "..." else s

/-- The JSON-serializable record built for one dataset in
`main.collect_geo_data` lines 70–82: the summary is truncated to its first
500 characters plus a literal "..." when longer than 500 characters. -/
def summarizeDataset (r : DatasetRecord) : DatasetSummaryJson :=
  { accession := r.accession, title := r.title,
    summary := truncateSummary r.summary,
    organism := r.organism, platform := r.platform,
    n_samples := r.samples.length,
    has_methylation_data := r.methylation.isSome }

/-! Concrete instances used to exercise the model at specific inputs. -/

/-- A table whose index labels differ from its first-column identifiers, as
with the positionally-indexed tables the remote parser produces. -/
def tIdx1 : SampleTable := ⟨["cg1"], "ID_REF", ["cgA"], [("VALUE", [1])]⟩

/-- Companion table for `tIdx1` sharing the index label "cg1". -/
def tIdx2 : SampleTable := ⟨["cg1"], "ID_REF", ["cgB"], [("VALUE", [2])]⟩

/-- A well-formed table: index coincides with the identifier column. -/
def tOk1 : SampleTable :=
  ⟨["cg1", "cg2"], "ID_REF", ["cg1", "cg2"], [("VALUE", [1, 2])]⟩

/-- A second well-formed table overlapping `tOk1` on "cg1" and "cg2". -/
def tOk2 : SampleTable :=
  ⟨["cg2", "cg1"], "ID_REF", ["cg2", "cg1"], [("Beta_value", [3, 4])]⟩

/-- A table with both a "Beta_value" and a "VALUE" column, in that order. -/
def tPref : SampleTable :=
  ⟨["cg1"], "ID_REF", ["cg1"], [("Beta_value", [3]), ("VALUE", [7])]⟩

/-- A table with neither a "VALUE" nor a "Beta_value" column. -/
def tNoVal : SampleTable :=
  ⟨["cg1"], "ID_REF", ["cg1"], [("meth_pct", [9]), ("pval", [0])]⟩

/-- A remote dataset with one table-bearing sample and one without. -/
def rdW : RemoteDataset :=
  ⟨"Title", "Summary", "Homo sapiens", "GPL13534",
   [⟨"GSM1", some tOk1⟩, ⟨"GSM2", none⟩]⟩

/-- The record `buildRecord` produces for `rdW` under accession "GSE1". -/
def recW : DatasetRecord :=
  ⟨"GSE1", "Title", "Summary", "Homo sapiens", "GPL13534", ["GSM1", "GSM2"],
   some ⟨["cg1", "cg2"], [("sample_0", [1, 2])]⟩⟩

/-- Environment whose remote source answers `rdW` and whose writes succeed. -/
def envW : FetchEnv := ⟨some rdW, true⟩

/-- A remote dataset whose only table lacks both value-column names. -/
def rdNoVal : RemoteDataset :=
  ⟨"T", "S", "O", "P", [⟨"GSM1", some tNoVal⟩, ⟨"GSM2", none⟩]⟩

/-- Environment answering `rdNoVal`. -/
def envNoVal : FetchEnv := ⟨some rdNoVal, true⟩

/-- Environment answering `rdW` but whose cache writes fail. -/
def envNoWrite : FetchEnv := ⟨some rdW, false⟩

/-- A first stored record for the cache-write analysis. -/
def recA : DatasetRecord := ⟨"GSE1", "old", "", "", "", [], none⟩

/-- A second, different record for the cache-write analysis. -/
def recB : DatasetRecord := ⟨"GSE1", "new", "", "", "", [], none⟩

/-- A record whose summary is 501 characters long. -/
def rec501 : DatasetRecord :=
  ⟨"GSE9", "T", String.mk (List.replicate 501 'a'), "O", "P", [], none⟩

/-- The spec's three-dataset scenario: identifier sets {a,b,c}, {b,c,d},
{c,d,e}. -/
def cpgW : List (String × Finset String) :=
  [("D1", {"a", "b", "c"}), ("D2", {"b", "c", "d"}), ("D3", {"c", "d", "e"})]

/-- An overlap collection whose middle dataset has an empty identifier set. -/
def cpgEmptyOne : List (String × Finset String) :=
  [("D1", {"a", "b"}), ("D2", ∅), ("D3", {"b", "c"})]

/-- The overlap matrix the model computes for `cpgW`. -/
def mW : List (String × List (String × ℚ)) :=
  [("D1", [("D1", 1), ("D2", 1/2), ("D3", 1/5)]),
   ("D2", [("D1", 1/2), ("D2", 1), ("D3", 1/2)]),
   ("D3", [("D1", 1/5), ("D2", 1/2), ("D3", 1)])]

/-! Generic inversion and construction lemmas for `List.mapM` over
`Except Unit`, shared by the proofs below. -/

/-- `mapM` on a cons succeeds exactly through a success at the head and a
success on the tail. -/
theorem mapM_cons_ok {α β : Type} {f : α → Except Unit β} {a : α}
    {t : List α} {ys : List β} (h : (a :: t).mapM f = Except.ok ys) :
    ∃ b bs, f a = Except.ok b ∧ t.mapM f = Except.ok bs ∧ ys = b :: bs := by
  rw [← List.mapM'_eq_mapM, List.mapM'_cons] at h
  cases hfa : f a with
  | error e => rw [hfa] at h; exact absurd h (by simp [Bind.bind, Except.bind])
  | ok b =>
    rw [hfa] at h
    cases hmt : t.mapM' f with
    | error e =>
      rw [hmt] at h
      exact absurd h (by simp [Bind.bind, Except.bind])
    | ok bs =>
      rw [hmt] at h
      refine ⟨b, bs, rfl, ?_, ?_⟩
      · rw [← List.mapM'_eq_mapM]; exact hmt
      · have : (Except.ok (b :: bs) : Except Unit (List β)) = Except.ok ys := h
        exact (Except.ok.inj this).symm

/-- Pointwise success with a known value function makes `mapM` succeed with
the mapped list. -/
theorem mapM_ok_of_forall {α β : Type} (f : α → Except Unit β) (g : α → β) :
    ∀ (l : List α), (∀ x ∈ l, f x = Except.ok (g x)) →
      l.mapM f = Except.ok (l.map g)
  | [], _ => by rfl
  | a :: t, h => by
    rw [← List.mapM'_eq_mapM, List.mapM'_cons, h a (List.mem_cons_self a t),
      List.mapM'_eq_mapM,
      mapM_ok_of_forall f g t (fun x hx => h x (List.mem_cons_of_mem a hx))]
    rfl

/-- Pointwise success makes `mapM` succeed. -/
theorem mapM_ok_of_forall_ex {α β : Type} (f : α → Except Unit β) :
    ∀ (l : List α), (∀ x ∈ l, ∃ y, f x = Except.ok y) →
      ∃ ys, l.mapM f = Except.ok ys
  | [], _ => ⟨[], by rfl⟩
  | a :: t, h => by
    obtain ⟨b, hb⟩ := h a (List.mem_cons_self a t)
    obtain ⟨bs, hbs⟩ :=
      mapM_ok_of_forall_ex f t (fun x hx => h x (List.mem_cons_of_mem a hx))
    refine ⟨b :: bs, ?_⟩
    rw [← List.mapM'_eq_mapM] at hbs
    rw [← List.mapM'_eq_mapM, List.mapM'_cons, hb, hbs]
    rfl

/-- A successful `mapM` preserves the length. -/
theorem mapM_ok_length {α β : Type} {f : α → Except Unit β} :
    ∀ {l : List α} {ys : List β}, l.mapM f = Except.ok ys →
      ys.length = l.length
  | [], ys, h => by
    have : (Except.ok [] : Except Unit (List β)) = Except.ok ys := h
    rw [← Except.ok.inj this]
    rfl
  | a :: t, ys, h => by
    obtain ⟨b, bs, _, hbs, rfl⟩ := mapM_cons_ok h
    simp [mapM_ok_length hbs]

/-- Every element of a successful `mapM` result comes from some input. -/
theorem mapM_ok_mem {α β : Type} {f : α → Except Unit β} :
    ∀ {l : List α} {ys : List β}, l.mapM f = Except.ok ys →
      ∀ y ∈ ys, ∃ x ∈ l, f x = Except.ok y
  | [], ys, h => by
    have : (Except.ok [] : Except Unit (List β)) = Except.ok ys := h
    rw [← Except.ok.inj this]
    intro y hy
    exact absurd hy (List.not_mem_nil y)
  | a :: t, ys, h => by
    obtain ⟨b, bs, hb, hbs, rfl⟩ := mapM_cons_ok h
    intro y hy
    rcases List.mem_cons.mp hy with rfl | hy
    · exact ⟨a, List.mem_cons_self a t, hb⟩
    · obtain ⟨x, hx, hfx⟩ := mapM_ok_mem hbs y hy
      exact ⟨x, List.mem_cons_of_mem a hx, hfx⟩

/-- Positional characterisation of a successful `mapM` result. -/
theorem mapM_ok_get {α β : Type} {f : α → Except Unit β} :
    ∀ {l : List α} {ys : List β}, l.mapM f = Except.ok ys →
      ∀ i x, l.get? i = some x → ∃ y, ys.get? i = some y ∧ f x = Except.ok y
  | [], ys, h => by
    intro i x hx
    exact absurd hx (by simp)
  | a :: t, ys, h => by
    obtain ⟨b, bs, hb, hbs, rfl⟩ := mapM_cons_ok h
    intro i x hx
    match i with
    | 0 =>
      refine ⟨b, rfl, ?_⟩
      have : a = x := by simpa using hx
      rw [← this]
      exact hb
    | Nat.succ n =>
      have hx' : t.get? n = some x := by simpa using hx
      obtain ⟨y, hy, hfy⟩ := mapM_ok_get hbs n x hx'
      exact ⟨y, by simpa using hy, hfy⟩

/-! Lemmas about the common-identifier computation and row lookup. -/

/-- Membership after iterated filtering by index membership. -/
theorem mem_foldl_filter (l : List SampleTable) :
    ∀ (acc : List String) (id : String),
      id ∈ l.foldl (fun acc t => acc.filter (fun id => id ∈ t.index)) acc ↔
        id ∈ acc ∧ ∀ t ∈ l, id ∈ t.index := by
  induction l with
  | nil => intro acc id; simp
  | cons a t ih =>
    intro acc id
    rw [List.foldl_cons, ih]
    simp [List.mem_filter, and_assoc]

/-- An identifier is common exactly when it lies in every table's index. -/
theorem mem_commonOf (m : SampleTable) (rest : List SampleTable)
    (id : String) :
    id ∈ commonOf (m :: rest) ↔ ∀ t ∈ m :: rest, id ∈ t.index := by
  unfold commonOf
  rw [mem_foldl_filter]
  simp [List.mem_dedup]

/-- Looking an identifier up in a zipped index succeeds when the identifier
occurs in the index and the value column has matching length. -/
theorem lookupCol_zip_ok :
    ∀ (ids : List String) (vals : List ℚ) (id : String),
      vals.length = ids.length → id ∈ ids →
      ∃ v, lookupCol (ids.zip vals) id = Except.ok v
  | [], _, id, _, hm => absurd hm (List.not_mem_nil id)
  | _ :: _, [], _, hl, _ => by simp at hl
  | a :: ids, b :: vals, id, hl, hm => by
    rw [List.zip_cons_cons]
    by_cases hid : a = id
    · refine ⟨b, ?_⟩
      unfold lookupCol
      rw [List.find?_cons_of_pos _ (by simpa using hid)]
    · have hm' : id ∈ ids := by
        rcases List.mem_cons.mp hm with h | h
        · exact absurd h.symm hid
        · exact h
      have hl' : vals.length = ids.length := by simpa using hl
      obtain ⟨v, hv⟩ := lookupCol_zip_ok ids vals id hl' hm'
      refine ⟨v, ?_⟩
      unfold lookupCol
      rw [List.find?_cons_of_neg _ (by simpa using hid)]
      unfold lookupCol at hv
      exact hv

/-- With duplicate-free column names, `find?` locates a named column. -/
theorem find?_named :
    ∀ (l : List (String × List ℚ)) (n : String) (v : List ℚ),
      (l.map Prod.fst).Nodup → (n, v) ∈ l →
      l.find? (fun c => c.1 = n) = some (n, v)
  | [], n, v, _, hm => absurd hm (List.not_mem_nil _)
  | c :: t, n, v, hnd, hm => by
    rcases List.mem_cons.mp hm with rfl | hm'
    · exact List.find?_cons_of_pos _ (by simp)
    · have hn : n ∈ t.map Prod.fst :=
        List.mem_map.mpr ⟨(n, v), hm', rfl⟩
      have hnd' : (c.1 :: t.map Prod.fst).Nodup := by simpa using hnd
      obtain ⟨hc1, hrest⟩ := List.nodup_cons.mp hnd'
      have hne : c.1 ≠ n := fun h => hc1 (h ▸ hn)
      rw [List.find?_cons_of_neg _ (by simpa using hne)]
      exact find?_named t n v hrest hm'

/-- With duplicate-free column names, `getCol` returns the named column. -/
theorem getCol_named (t : SampleTable) (n : String) (v : List ℚ)
    (hnd : (t.valCols.map Prod.fst).Nodup) (hm : (n, v) ∈ t.valCols) :
    getCol t n = Except.ok v := by
  unfold getCol
  rw [find?_named t.valCols n v hnd hm]

/-- Bind on a successful `Except` computation reduces. -/
theorem exBind_ok {α β : Type} (a : α) (k : α → Except Unit β) :
    (Except.ok a >>= k : Except Unit β) = k a := rfl

/-- Membership transfer out of `List.enum`. -/
theorem snd_mem_of_mem_enum {α : Type} {l : List α} {p : ℕ × α}
    (h : p ∈ l.enum) : p.2 ∈ l := by
  have := List.mem_enum_iff_getElem?.mp h
  exact List.getElem?_mem this

/-- Success of the combiner: with a non-empty common set, every table's
index equal to its identifier column, and well-formed value extraction, the
combiner returns the matrix over `commonOf`. -/
theorem combine_ok_of (m : SampleTable) (rest : List SampleTable)
    (hidx : ∀ t ∈ m :: rest, t.index = t.ids)
    (hwf : ∀ t ∈ m :: rest, ∃ vals, extractValues t = Except.ok vals ∧
      vals.length = t.ids.length)
    (hcom : (commonOf (m :: rest)).isEmpty = false) :
    ∃ cols, combineMethylationData (m :: rest) =
      Except.ok (some ⟨commonOf (m :: rest), cols⟩) := by
  have houter : ∀ p ∈ (m :: rest).enum, ∃ y,
      sampleColumn (commonOf (m :: rest)) p = Except.ok y := by
    intro p hp
    have hpt : p.2 ∈ m :: rest := snd_mem_of_mem_enum hp
    obtain ⟨vals, hv, hlen⟩ := hwf p.2 hpt
    have hlook : ∀ id ∈ commonOf (m :: rest),
        ∃ v, lookupCol (p.2.ids.zip vals) id = Except.ok v := by
      intro id hid
      refine lookupCol_zip_ok p.2.ids vals id hlen ?_
      have hmem : id ∈ p.2.index := (mem_commonOf m rest id).mp hid p.2 hpt
      rw [hidx p.2 hpt] at hmem
      exact hmem
    obtain ⟨colVals, hcv⟩ := mapM_ok_of_forall_ex _ _ hlook
    refine ⟨(String.append "sample_" (toString p.1), colVals), ?_⟩
    simp only [sampleColumn, hv, exBind_ok, hcv]
    rfl
  obtain ⟨cols, hcols⟩ := mapM_ok_of_forall_ex _ _ houter
  refine ⟨cols, ?_⟩
  simp only [combineMethylationData, hcom, Bool.false_eq_true, if_false,
    hcols, exBind_ok]
  rfl

/-- Inversion of a successful combine: the rows are exactly `commonOf` and
every sample column was produced by looking up each common identifier, so
it has exactly one value per row. -/
theorem combine_ok_inv (matrices : List SampleTable) (mat : CombinedMatrix)
    (h : combineMethylationData matrices = Except.ok (some mat)) :
    mat.rowIds = commonOf matrices ∧
    ∀ c ∈ mat.cols, c.2.length = mat.rowIds.length := by
  match matrices with
  | [] => exact absurd (Except.ok.inj h) (by simp)
  | m :: rest =>
    by_cases hcom : (commonOf (m :: rest)).isEmpty
    · rw [show combineMethylationData (m :: rest) = Except.ok none by
        simp only [combineMethylationData, hcom, if_true]] at h
      exact absurd (Except.ok.inj h) (by simp)
    · rw [Bool.not_eq_true] at hcom
      cases houter : ((m :: rest).enum).mapM
          (sampleColumn (commonOf (m :: rest))) with
      | error e =>
        rw [show combineMethylationData (m :: rest) = Except.error e by
          simp only [combineMethylationData, hcom, Bool.false_eq_true,
            if_false, houter]; rfl] at h
        exact absurd h (by simp)
      | ok cols =>
        have hval : combineMethylationData (m :: rest) =
            Except.ok (some ⟨commonOf (m :: rest), cols⟩) := by
          simp only [combineMethylationData, hcom, Bool.false_eq_true,
            if_false, houter, exBind_ok]
          rfl
        rw [hval] at h
        have hmat : (some ⟨commonOf (m :: rest), cols⟩ :
            Option CombinedMatrix) = some mat := Except.ok.inj h
        have hmat' : (⟨commonOf (m :: rest), cols⟩ : CombinedMatrix) = mat :=
          Option.some.inj hmat
        refine ⟨by rw [← hmat'], ?_⟩
        intro c hc
        rw [← hmat'] at hc
        obtain ⟨p, _, hfp⟩ := mapM_ok_mem houter c hc
        cases hv : extractValues p.2 with
        | error e =>
          rw [show sampleColumn (commonOf (m :: rest)) p = Except.error e by
            simp only [sampleColumn, hv]; rfl] at hfp
          exact absurd hfp (by simp)
        | ok vals =>
          cases hcv : (commonOf (m :: rest)).mapM
              (lookupCol (p.2.ids.zip vals)) with
          | error e =>
            rw [show sampleColumn (commonOf (m :: rest)) p =
                Except.error e by
              simp only [sampleColumn, hv, exBind_ok, hcv]; rfl] at hfp
            exact absurd hfp (by simp)
          | ok colVals =>
            rw [show sampleColumn (commonOf (m :: rest)) p =
                Except.ok (String.append "sample_" (toString p.1), colVals) by
              simp only [sampleColumn, hv, exBind_ok, hcv]; rfl] at hfp
            have hcq : (String.append "sample_" (toString p.1), colVals) =
              c := Except.ok.inj hfp
            rw [← hmat', ← hcq]
            exact mapM_ok_length hcv

/-! Lemmas about the pairwise overlap matrix. -/

/-- Rounding fixes 1. -/
theorem round3_one : round3 1 = 1 := by norm_num [round3]

/-- Rounding fixes 0. -/
theorem round3_zero : round3 0 = 0 := by norm_num [round3]

/-- The Jaccard quotient is symmetric. -/
theorem jaccard_comm (s1 s2 : Finset String) :
    jaccard s1 s2 = jaccard s2 s1 := by
  unfold jaccard
  rw [Finset.union_comm, Finset.inter_comm]

/-- Each ordered pair and its swap produce the same entry. -/
theorem overlapEntry_comm (p q : ℕ × (String × Finset String)) :
    overlapEntry p q = overlapEntry q p := by
  unfold overlapEntry
  rcases eq_or_ne p.1 q.1 with h | h
  · simp [h]
  · rw [if_neg h, if_neg (Ne.symm h), jaccard_comm]

/-- A successful overlap matrix has one row per dataset. -/
theorem createOverlapMatrix_length {d : List (String × Finset String)}
    {m : List (String × List (String × ℚ))}
    (h : createOverlapMatrix d = Except.ok m) : m.length = d.length := by
  have := mapM_ok_length h
  rwa [List.enum_length] at this

/-- Inversion of a successful row construction. -/
theorem overlapRow_ok_inv {d : List (String × Finset String)}
    {p : ℕ × (String × Finset String)} {y : String × List (String × ℚ)}
    (h : overlapRow d p = Except.ok y) :
    ∃ row, d.enum.mapM (overlapCell p) = Except.ok row ∧ y = (p.2.1, row) := by
  cases hr : d.enum.mapM (overlapCell p) with
  | error e =>
    rw [show overlapRow d p = Except.error e by
      simp only [overlapRow, hr]; rfl] at h
    exact absurd h (by simp)
  | ok row =>
    rw [show overlapRow d p = Except.ok (p.2.1, row) by
      simp only [overlapRow, hr]; rfl] at h
    exact ⟨row, rfl, (Except.ok.inj h).symm⟩

/-- Inversion of a successful cell construction. -/
theorem overlapCell_ok_inv {p q : ℕ × (String × Finset String)}
    {z : String × ℚ} (h : overlapCell p q = Except.ok z) :
    ∃ v, overlapEntry p q = Except.ok v ∧ z = (q.2.1, v) := by
  cases hv : overlapEntry p q with
  | error e =>
    rw [show overlapCell p q = Except.error e by
      simp only [overlapCell, hv]; rfl] at h
    exact absurd h (by simp)
  | ok v =>
    rw [show overlapCell p q = Except.ok (q.2.1, v) by
      simp only [overlapCell, hv]; rfl] at h
    exact ⟨v, rfl, (Except.ok.inj h).symm⟩

/-- Every row of a successful overlap matrix has one cell per dataset. -/
theorem overlapRow_length {d : List (String × Finset String)}
    {m : List (String × List (String × ℚ))}
    (h : createOverlapMatrix d = Except.ok m) :
    ∀ r ∈ m, r.2.length = d.length := by
  intro r hr
  obtain ⟨p, _, hfp⟩ := mapM_ok_mem h r hr
  obtain ⟨row, hrow, rfl⟩ := overlapRow_ok_inv hfp
  have := mapM_ok_length hrow
  rwa [List.enum_length] at this

/-- The in-range entries of a successful overlap matrix are exactly the
successful `overlapEntry` values. -/
theorem entryAt_some {d : List (String × Finset String)}
    {m : List (String × List (String × ℚ))}
    (h : createOverlapMatrix d = Except.ok m) {i j : ℕ}
    {pi pj : String × Finset String}
    (hi : d.get? i = some pi) (hj : d.get? j = some pj) :
    ∃ v, overlapEntry (i, pi) (j, pj) = Except.ok v ∧
      entryAt m i j = some v := by
  have hei : d.enum.get? i = some (i, pi) := by
    rw [List.get?_enum, hi]; rfl
  have hej : d.enum.get? j = some (j, pj) := by
    rw [List.get?_enum, hj]; rfl
  obtain ⟨y, hy, hfy⟩ := mapM_ok_get h i (i, pi) hei
  obtain ⟨row, hrow, rfl⟩ := overlapRow_ok_inv hfy
  obtain ⟨z, hz, hfz⟩ := mapM_ok_get hrow j (j, pj) hej
  obtain ⟨v, hv, rfl⟩ := overlapCell_ok_inv hfz
  refine ⟨v, hv, ?_⟩
  unfold entryAt
  rw [hy, Option.some_bind, hz]
  rfl

/-- Out-of-range positions have no entry. -/
theorem entryAt_none_of_ge {d : List (String × Finset String)}
    {m : List (String × List (String × ℚ))}
    (h : createOverlapMatrix d = Except.ok m) {i j : ℕ}
    (hij : d.length ≤ i ∨ d.length ≤ j) : entryAt m i j = none := by
  rcases hij with hi | hj
  · unfold entryAt
    rw [List.get?_eq_none.mpr (by rw [createOverlapMatrix_length h]; exact hi)]
    rfl
  · cases hgi : m.get? i with
    | none => unfold entryAt; rw [hgi]; rfl
    | some r =>
      unfold entryAt
      have hr : r ∈ m := List.get?_mem hgi
      have hlen : r.2.length ≤ j := by
        rw [overlapRow_length h r hr]; exact hj
      rw [hgi, Option.some_bind, List.get?_eq_none.mpr hlen]
      rfl

/-! Lemmas about the universe, core and exclusive-count computations. -/

/-- Membership in the iterated union. -/
theorem mem_foldl_union (l : List (String × Finset String)) :
    ∀ (acc : Finset String) (x : String),
      x ∈ l.foldl (fun a p => a ∪ p.2) acc ↔
        x ∈ acc ∨ ∃ p ∈ l, x ∈ p.2 := by
  induction l with
  | nil => intro acc x; simp
  | cons a t ih =>
    intro acc x
    rw [List.foldl_cons, ih]
    simp [Finset.mem_union, or_assoc]

/-- Membership in the identifier universe. -/
theorem mem_allCpgsOf (d : List (String × Finset String)) (x : String) :
    x ∈ allCpgsOf d ↔ ∃ p ∈ d, x ∈ p.2 := by
  unfold allCpgsOf
  rw [mem_foldl_union]
  simp

/-- Membership in the iterated intersection. -/
theorem mem_foldl_inter (l : List (String × Finset String)) :
    ∀ (acc : Finset String) (x : String),
      x ∈ l.foldl (fun a q => a ∩ q.2) acc ↔
        x ∈ acc ∧ ∀ q ∈ l, x ∈ q.2 := by
  induction l with
  | nil => intro acc x; simp
  | cons a t ih =>
    intro acc x
    rw [List.foldl_cons, ih]
    simp [Finset.mem_inter, and_assoc]

/-- Membership in the core set: present in every dataset. -/
theorem mem_coreOf (p : String × Finset String)
    (rest : List (String × Finset String)) (x : String) :
    x ∈ coreOf (p :: rest) ↔ ∀ q ∈ p :: rest, x ∈ q.2 := by
  unfold coreOf
  rw [mem_foldl_inter]
  simp

/-- Dropping a dataset with an empty identifier set leaves the universe
unchanged: it contributes nothing. -/
theorem allCpgsOf_eraseIdx {d : List (String × Finset String)} :
    ∀ {k : ℕ} {acc : String}, d.get? k = some (acc, ∅) →
      allCpgsOf d = allCpgsOf (d.eraseIdx k) := by
  induction d with
  | nil => intro k acc h; simp at h
  | cons p t ih =>
    intro k acc h
    match k with
    | 0 =>
      have hp : p = (acc, ∅) := by simpa using h
      subst hp
      ext x
      simp [mem_allCpgsOf, List.eraseIdx]
    | Nat.succ n =>
      have h' : t.get? n = some (acc, ∅) := by simpa using h
      have heq := ih h'
      ext x
      have hx : x ∈ allCpgsOf t ↔ x ∈ allCpgsOf (t.eraseIdx n) := by
        rw [heq]
      rw [mem_allCpgsOf] at hx
      rw [mem_allCpgsOf] at hx
      simp [mem_allCpgsOf, List.eraseIdx, hx]

/-- An empty left set with non-empty right set gives Jaccard zero. -/
theorem jaccard_empty_left {s : Finset String} (hs : s ≠ ∅) :
    jaccard ∅ s = Except.ok 0 := by
  unfold jaccard
  rw [Finset.empty_union, if_neg hs]
  simp

/-- The overlap matrix succeeds when every off-diagonal pair of datasets
has a non-empty union. -/
theorem createOverlapMatrix_ok_of (d : List (String × Finset String))
    (h : ∀ i j pi pj, i ≠ j → d.get? i = some pi → d.get? j = some pj →
      pi.2 ∪ pj.2 ≠ ∅) :
    ∃ m, createOverlapMatrix d = Except.ok m := by
  apply mapM_ok_of_forall_ex
  intro p hp
  have hpi : d.get? p.1 = some p.2 := by
    rw [List.get?_eq_getElem?]
    exact List.mem_enum_iff_getElem?.mp hp
  have hrow : ∀ q ∈ d.enum, ∃ z, overlapCell p q = Except.ok z := by
    intro q hq
    have hqi : d.get? q.1 = some q.2 := by
      rw [List.get?_eq_getElem?]
      exact List.mem_enum_iff_getElem?.mp hq
    rcases eq_or_ne p.1 q.1 with hd | hd
    · refine ⟨(q.2.1, round3 1), ?_⟩
      simp only [overlapCell, overlapEntry, if_pos hd, exBind_ok]
      rfl
    · have hne := h p.1 q.1 p.2 q.2 hd hpi hqi
      refine ⟨(q.2.1, round3 (((p.2.2 ∩ q.2.2).card : ℚ) /
        ((p.2.2 ∪ q.2.2).card : ℚ))), ?_⟩
      simp only [overlapCell, overlapEntry, if_neg hd, jaccard,
        if_neg hne]
      rfl
  obtain ⟨row, hrowok⟩ := mapM_ok_of_forall_ex _ _ hrow
  refine ⟨(p.2.1, row), ?_⟩
  simp only [overlapRow, hrowok, exBind_ok]
  rfl

/-- Membership in a table's identifier set is membership in its index. -/
theorem mem_idxSet (t : SampleTable) (id : String) :
    id ∈ t.idxSet ↔ id ∈ t.index := List.mem_toFinset

/-- Claim C1, counterexample: `tIdx1` and `tIdx2` are two sample tables
whose index-derived identifier sets share the identifier "cg1" (a
non-empty intersection), yet the combiner raises a KeyError — it returns no
matrix at all — because rows are looked up via the first column, which
differs from the index. -/
theorem c1_counterexample :
    (∃ id, ∀ t ∈ [tIdx1, tIdx2], id ∈ t.idxSet) ∧
    combineMethylationData [tIdx1, tIdx2] = Except.error () := by
  constructor
  · exact ⟨"cg1", by decide⟩
  · rfl

/-- Claim C1, amended: for every non-empty sequence of sample tables whose
index-derived identifier sets share at least one identifier, in which each
table's index coincides with its first (identifier) column and value-column
extraction yields one value per row, the combiner returns a matrix whose
row set equals exactly the intersection of all input identifier sets. -/
theorem c1_amended_rows_eq_intersection (m : SampleTable)
    (rest : List SampleTable)
    (hidx : ∀ t ∈ m :: rest, t.index = t.ids)
    (hwf : ∀ t ∈ m :: rest, ∃ vals, extractValues t = Except.ok vals ∧
      vals.length = t.ids.length)
    (hcom : ∃ id, ∀ t ∈ m :: rest, id ∈ t.idxSet) :
    ∃ mat, combineMethylationData (m :: rest) = Except.ok (some mat) ∧
      ∀ id, id ∈ mat.rowIds ↔ ∀ t ∈ m :: rest, id ∈ t.idxSet := by
  obtain ⟨id0, hid0⟩ := hcom
  have hmem : id0 ∈ commonOf (m :: rest) :=
    (mem_commonOf m rest id0).mpr
      (fun t ht => (mem_idxSet t id0).mp (hid0 t ht))
  have hcom' : (commonOf (m :: rest)).isEmpty = false := by
    cases he : (commonOf (m :: rest)).isEmpty
    · rfl
    · rw [List.isEmpty_iff] at he
      rw [he] at hmem
      exact absurd hmem (List.not_mem_nil _)
  obtain ⟨cols, hok⟩ := combine_ok_of m rest hidx hwf hcom'
  refine ⟨⟨commonOf (m :: rest), cols⟩, hok, ?_⟩
  intro id
  show id ∈ commonOf (m :: rest) ↔ _
  rw [mem_commonOf]
  constructor
  · intro h t ht
    exact (mem_idxSet t id).mpr (h t ht)
  · intro h t ht
    exact (mem_idxSet t id).mp (h t ht)

/-- Claim C1, witness: two well-formed overlapping tables produce a matrix
whose rows are exactly the shared identifiers. -/
theorem c1_witness :
    ∃ mat, combineMethylationData [tOk1, tOk2] = Except.ok (some mat) ∧
      ∀ id, id ∈ mat.rowIds ↔ ∀ t ∈ [tOk1, tOk2], id ∈ t.idxSet := by
  refine c1_amended_rows_eq_intersection tOk1 [tOk2] (by decide) ?_
    ⟨"cg1", by decide⟩
  intro t ht
  rcases List.mem_cons.mp ht with rfl | ht'
  · exact ⟨[1, 2], rfl, rfl⟩
  · rcases List.mem_cons.mp ht' with rfl | ht''
    · exact ⟨[3, 4], rfl, rfl⟩
    · exact absurd ht'' (List.not_mem_nil _)

/-- Claim C2: fetching with a stored, deserializable cache entry returns it
unchanged with no remote request and no freshness check; after a first
fetch on an absent cache whose record build and cache write succeed, a
second fetch returns the identical record without contacting the remote
source. -/
theorem c2_cache_idempotent (acc : String) (env : FetchEnv)
    (rd : RemoteDataset) (r : DatasetRecord)
    (hremote : env.remote = some rd) (hw : env.writeOk = true)
    (hb : buildRecord acc rd = Except.ok r) :
    (∀ r₀, fetchDataset acc env (CacheFile.stored r₀) =
      ⟨some r₀, CacheFile.stored r₀, false⟩) ∧
    fetchDataset acc env CacheFile.absent =
      ⟨some r, CacheFile.stored r, true⟩ ∧
    fetchDataset acc env (fetchDataset acc env CacheFile.absent).cacheAfter =
      ⟨some r, CacheFile.stored r, false⟩ := by
  have h1 : ∀ r₀, fetchDataset acc env (CacheFile.stored r₀) =
      ⟨some r₀, CacheFile.stored r₀, false⟩ := fun r₀ => rfl
  have h2 : fetchDataset acc env CacheFile.absent =
      ⟨some r, CacheFile.stored r, true⟩ := by
    show remoteFetch acc env CacheFile.absent = _
    simp only [remoteFetch, hremote, hb, hw, if_true]
  refine ⟨h1, h2, ?_⟩
  rw [h2]
  exact h1 r

/-- Claim C2, witness: the concrete environment `envW` exhibits the two
calls with identical results and no second remote request. -/
theorem c2_witness :
    fetchDataset "GSE1" envW CacheFile.absent =
      ⟨some recW, CacheFile.stored recW, true⟩ ∧
    fetchDataset "GSE1" envW (CacheFile.stored recW) =
      ⟨some recW, CacheFile.stored recW, false⟩ := by
  have h := c2_cache_idempotent "GSE1" envW rdW recW rfl rfl (by rfl)
  exact ⟨h.2.1, h.1 recW⟩

/-- Claim C3: whenever the pairwise overlap matrix is produced, entry
`(i, i)` is 1.0, entry `(i, j)` is the Jaccard index of the two identifier
sets rounded to three decimal places, and the matrix is symmetric. -/
theorem c3_overlap_matrix_properties (d : List (String × Finset String))
    (m : List (String × List (String × ℚ)))
    (h : createOverlapMatrix d = Except.ok m) :
    (∀ i pi, d.get? i = some pi → entryAt m i i = some 1) ∧
    (∀ i j pi pj, i ≠ j → d.get? i = some pi → d.get? j = some pj →
      entryAt m i j =
        some (round3 (((pi.2 ∩ pj.2).card : ℚ) /
          ((pi.2 ∪ pj.2).card : ℚ)))) ∧
    (∀ i j, entryAt m i j = entryAt m j i) := by
  refine ⟨?_, ?_, ?_⟩
  · intro i pi hi
    obtain ⟨v, hv, he⟩ := entryAt_some h hi hi
    have hveq : v = round3 1 := by
      unfold overlapEntry at hv
      rw [if_pos rfl] at hv
      exact (Except.ok.inj hv).symm
    rw [he, hveq, round3_one]
  · intro i j pi pj hij hi hj
    obtain ⟨v, hv, he⟩ := entryAt_some h hi hj
    unfold overlapEntry at hv
    rw [if_neg hij] at hv
    unfold jaccard at hv
    by_cases hu : pi.2 ∪ pj.2 = ∅
    · rw [if_pos hu] at hv
      exact absurd hv (by simp [Except.map])
    · rw [if_neg hu] at hv
      have hv' : Except.ok (round3 (((pi.2 ∩ pj.2).card : ℚ) /
          ((pi.2 ∪ pj.2).card : ℚ))) = Except.ok v := hv
      rw [he, ← Except.ok.inj hv']
  · intro i j
    by_cases hi : i < d.length
    · by_cases hj : j < d.length
      · obtain ⟨pi, hpi⟩ : ∃ pi, d.get? i = some pi :=
          ⟨d.get ⟨i, hi⟩, List.get?_eq_get hi⟩
        obtain ⟨pj, hpj⟩ : ∃ pj, d.get? j = some pj :=
          ⟨d.get ⟨j, hj⟩, List.get?_eq_get hj⟩
        obtain ⟨v, hv, he⟩ := entryAt_some h hpi hpj
        obtain ⟨v2, hv2, he2⟩ := entryAt_some h hpj hpi
        rw [overlapEntry_comm] at hv
        have : v = v2 := Except.ok.inj (hv.symm.trans hv2)
        rw [he, he2, this]
      · rw [entryAt_none_of_ge h (Or.inr (le_of_not_lt hj)),
          entryAt_none_of_ge h (Or.inl (le_of_not_lt hj))]
    · rw [entryAt_none_of_ge h (Or.inl (le_of_not_lt hi)),
        entryAt_none_of_ge h (Or.inr (le_of_not_lt hi))]

/-- Claim C3, witness: the three-dataset scenario produces the concrete
matrix `mW`, which therefore has unit diagonal, rounded Jaccard entries,
and symmetry. -/
theorem c3_witness :
    (∀ i pi, cpgW.get? i = some pi → entryAt mW i i = some 1) ∧
    (∀ i j pi pj, i ≠ j → cpgW.get? i = some pi → cpgW.get? j = some pj →
      entryAt mW i j =
        some (round3 (((pi.2 ∩ pj.2).card : ℚ) /
          ((pi.2 ∪ pj.2).card : ℚ)))) ∧
    (∀ i j, entryAt mW i j = entryAt mW j i) :=
  c3_overlap_matrix_properties cpgW mW (by
    simp [createOverlapMatrix, overlapRow, overlapCell, overlapEntry,
      jaccard, round3, Finset.union_eq_empty, cpgW, mW, List.enum,
      List.enumFrom, List.mapM, List.mapM.loop, Except.map, exBind_ok]
    norm_num)

/-- Claim C4, counterexample: with exactly one qualifying dataset the
analysis returns the empty dictionary — no report is produced at all, so
the core is not the full universe and no universe or per-dataset counts
are computed. -/
theorem c4_counterexample :
    analyzeCpgOverlap [("A", ({"x"} : Finset String))] = Except.ok none ∧
    ∀ rep, analyzeCpgOverlap [("A", ({"x"} : Finset String))] ≠
      Except.ok (some rep) := by
  refine ⟨rfl, ?_⟩
  intro rep h
  have h' : (Except.ok (none : Option OverlapReport) : Except Unit _) =
    Except.ok (some rep) := h
  simpa using Except.ok.inj h'

/-- Claim C4, amended: when fewer than two datasets qualify the analysis
returns the empty report (no core, no universe, no per-dataset counts);
when at least two qualify and the overlap matrix succeeds, the report's
core count is the size of the intersection of all qualifying identifier
sets, its universe count the size of their union, and per-dataset
exclusive counts are included for every dataset. -/
theorem c4_amended_core_and_empty_report :
    (∀ d : List (String × Finset String), d.length < 2 →
      analyzeCpgOverlap d = Except.ok none) ∧
    (∀ (p : String × Finset String) (rest : List (String × Finset String))
      (m : List (String × List (String × ℚ))),
      2 ≤ (p :: rest).length →
      createOverlapMatrix (p :: rest) = Except.ok m →
      ∃ rep, analyzeCpgOverlap (p :: rest) = Except.ok (some rep) ∧
        rep.core_cpgs = (coreOf (p :: rest)).card ∧
        (∀ x, x ∈ coreOf (p :: rest) ↔ ∀ q ∈ p :: rest, x ∈ q.2) ∧
        rep.total_unique_cpgs = (allCpgsOf (p :: rest)).card ∧
        (∀ x, x ∈ allCpgsOf (p :: rest) ↔ ∃ q ∈ p :: rest, x ∈ q.2) ∧
        rep.dataset_specific_counts = datasetSpecific (p :: rest) ∧
        rep.overlap_matrix = m) := by
  constructor
  · intro d hd
    unfold analyzeCpgOverlap
    rw [if_pos hd]
  · intro p rest m h2 hm
    refine ⟨⟨(allCpgsOf (p :: rest)).card, (coreOf (p :: rest)).card,
      datasetSpecific (p :: rest), m⟩, ?_, rfl, mem_coreOf p rest, rfl,
      mem_allCpgsOf (p :: rest), rfl, rfl⟩
    unfold analyzeCpgOverlap
    rw [if_neg (not_lt.mpr h2), hm]
    rfl

/-- Claim C4, witness: the three-dataset scenario yields a full report with
core size `|{c}| = 1`, universe size 5, and per-dataset exclusive counts. -/
theorem c4_witness :
    ∃ rep, analyzeCpgOverlap cpgW = Except.ok (some rep) ∧
      rep.core_cpgs = (coreOf cpgW).card ∧
      (∀ x, x ∈ coreOf cpgW ↔ ∀ q ∈ cpgW, x ∈ q.2) ∧
      rep.total_unique_cpgs = (allCpgsOf cpgW).card ∧
      (∀ x, x ∈ allCpgsOf cpgW ↔ ∃ q ∈ cpgW, x ∈ q.2) ∧
      rep.dataset_specific_counts = datasetSpecific cpgW ∧
      rep.overlap_matrix = mW :=
  c4_amended_core_and_empty_report.2 ("D1", {"a", "b", "c"})
    [("D2", {"b", "c", "d"}), ("D3", {"c", "d", "e"})] mW
    (by simp) (by
    simp [createOverlapMatrix, overlapRow, overlapCell, overlapEntry,
      jaccard, round3, Finset.union_eq_empty, cpgW, mW, List.enum,
      List.enumFrom, List.mapM, List.mapM.loop, Except.map, exBind_ok]
    norm_num)

/-- Claim C7, counterexample: a collection of two qualifying datasets that
both have empty identifier sets makes the overlap computation raise a
ZeroDivisionError (the Jaccard union is empty), so it is not well-defined
for every collection including an empty-set dataset. -/
theorem c7_counterexample :
    createOverlapMatrix
      [("A", (∅ : Finset String)), ("B", (∅ : Finset String))] =
      Except.error () ∧
    analyzeCpgOverlap
      [("A", (∅ : Finset String)), ("B", (∅ : Finset String))] =
      Except.error () := ⟨rfl, rfl⟩

/-- Claim C7, amended: in a collection whose dataset at position `k` has an
empty identifier set while every other dataset's set is non-empty, the
overlap computation succeeds, that dataset contributes 0 to every pairwise
entry involving it, its exclusive count is present and equal to 0, and the
identifier universe is unchanged by dropping it (it participates as a
zero-contribution member); with two distinct empty-set datasets the
computation instead raises a ZeroDivisionError. -/
theorem c7_amended_empty_dataset_zero (d : List (String × Finset String))
    (k : ℕ) (acc : String) (hk : d.get? k = some (acc, ∅))
    (hothers : ∀ j q, j ≠ k → d.get? j = some q → q.2 ≠ ∅) :
    ∃ m, createOverlapMatrix d = Except.ok m ∧
      (∀ j q, j ≠ k → d.get? j = some q →
        entryAt m k j = some 0 ∧ entryAt m j k = some 0) ∧
      (datasetSpecific d).get? k = some (acc, 0) ∧
      allCpgsOf d = allCpgsOf (d.eraseIdx k) := by
  have hcond : ∀ i j pi pj, i ≠ j → d.get? i = some pi →
      d.get? j = some pj → pi.2 ∪ pj.2 ≠ ∅ := by
    intro i j pi pj hij hi hj hu
    by_cases hik : i = k
    · subst hik
      have hjk : j ≠ i := fun h => hij h.symm
      exact hothers j pj hjk hj (Finset.union_eq_empty.mp hu).2
    · exact hothers i pi hik hi (Finset.union_eq_empty.mp hu).1
  obtain ⟨m, hm⟩ := createOverlapMatrix_ok_of d hcond
  refine ⟨m, hm, ?_, ?_, allCpgsOf_eraseIdx hk⟩
  · intro j q hjk hj
    have hqne : q.2 ≠ ∅ := hothers j q hjk hj
    constructor
    · obtain ⟨v, hv, he⟩ := entryAt_some hm hk hj
      unfold overlapEntry at hv
      rw [if_neg (show ¬((k, (acc, (∅ : Finset String))).1 = (j, q).1) from
        fun h => hjk (h.symm))] at hv
      rw [show ((k, (acc, (∅ : Finset String))).2.2 : Finset String) = ∅
        from rfl, jaccard_empty_left hqne] at hv
      have hv' : Except.ok (round3 0) = Except.ok v := hv
      rw [he, ← Except.ok.inj hv', round3_zero]
    · obtain ⟨v, hv, he⟩ := entryAt_some hm hj hk
      rw [overlapEntry_comm] at hv
      unfold overlapEntry at hv
      rw [if_neg (show ¬((k, (acc, (∅ : Finset String))).1 = (j, q).1) from
        fun h => hjk (h.symm))] at hv
      rw [show ((k, (acc, (∅ : Finset String))).2.2 : Finset String) = ∅
        from rfl, jaccard_empty_left hqne] at hv
      have hv' : Except.ok (round3 0) = Except.ok v := hv
      rw [he, ← Except.ok.inj hv', round3_zero]
  · unfold datasetSpecific
    rw [List.get?_map, hk]
    simp

/-- Claim C7, witness: in the concrete collection `cpgEmptyOne` the middle
dataset has an empty identifier set; the matrix succeeds, its entries
involving that dataset are all 0, its exclusive count is 0, and the
universe ignores it. -/
theorem c7_witness :
    ∃ m, createOverlapMatrix cpgEmptyOne = Except.ok m ∧
      (∀ j q, j ≠ 1 → cpgEmptyOne.get? j = some q →
        entryAt m 1 j = some 0 ∧ entryAt m j 1 = some 0) ∧
      (datasetSpecific cpgEmptyOne).get? 1 = some ("D2", 0) ∧
      allCpgsOf cpgEmptyOne = allCpgsOf (cpgEmptyOne.eraseIdx 1) := by
  refine c7_amended_empty_dataset_zero cpgEmptyOne 1 "D2" rfl ?_
  intro j q hj hq
  match j, hq with
  | 0, hq =>
    have hq' : ("D1", ({"a", "b"} : Finset String)) = q := by
      simpa [cpgEmptyOne] using hq
    rw [← hq']
    decide
  | 1, hq => exact absurd rfl hj
  | 2, hq =>
    have hq' : ("D3", ({"b", "c"} : Finset String)) = q := by
      simpa [cpgEmptyOne] using hq
    rw [← hq']
    decide
  | (n + 3), hq => simp [cpgEmptyOne] at hq

/-- Claim C5, counterexample: the cache write is not atomic — writing a new
record over a stored one passes through a truncated (corrupt) cache file
state that is neither the old nor the new record, so a crash mid-write
corrupts the cache. -/
theorem c5_counterexample :
    ¬ atomicPut (codePutOps recB) (CacheFile.stored recA) recB := by
  intro h
  have h1 := h 1 (by simp [codePutOps])
  rw [show runSteps (CacheFile.stored recA) ((codePutOps recB).take 1) =
    CacheFile.corrupt from rfl] at h1
  rcases h1 with h1 | h1 <;> exact CacheFile.noConfusion h1

/-- Claim C5, amended: the cache write is an in-place overwrite (truncate
the cache file, then serialize into it) rather than write-to-temp and
replace: a completed write stores the record, but an interruption after the
truncation leaves a corrupt cache file; corruption is tolerated at read
time as a cache miss (the remote source is contacted); and a cache-write
failure is non-fatal — the freshly built record is still returned, only
persistence is skipped. -/
theorem c5_amended_inplace_write_nonfatal :
    (∀ (init : CacheFile) (r : DatasetRecord),
      runSteps init (codePutOps r) = CacheFile.stored r) ∧
    (∀ (r₀ r : DatasetRecord),
      runSteps (CacheFile.stored r₀) ((codePutOps r).take 1) =
        CacheFile.corrupt) ∧
    (∀ (acc : String) (env : FetchEnv),
      (fetchDataset acc env CacheFile.corrupt).remoteCalled = true) ∧
    (∀ (acc : String) (env : FetchEnv) (rd : RemoteDataset)
      (r : DatasetRecord), env.writeOk = false → env.remote = some rd →
      buildRecord acc rd = Except.ok r →
      fetchDataset acc env CacheFile.absent =
        ⟨some r, CacheFile.absent, true⟩) := by
  refine ⟨fun init r => rfl, fun r₀ r => rfl, ?_, ?_⟩
  · intro acc env
    show (remoteFetch acc env CacheFile.corrupt).remoteCalled = true
    cases henv : env.remote with
    | none => simp [remoteFetch, henv]
    | some rd =>
      cases hb : buildRecord acc rd with
      | error e => simp [remoteFetch, henv, hb]
      | ok r => simp [remoteFetch, henv, hb]
  · intro acc env rd r hw hremote hb
    show remoteFetch acc env CacheFile.absent = _
    simp [remoteFetch, hremote, hb, hw]

/-- Claim C5, witness: concrete records exhibit the completed write, the
corrupt intermediate state, corruption treated as a miss, and the record
returned despite a failing write. -/
theorem c5_witness :
    runSteps (CacheFile.stored recA) (codePutOps recB) =
      CacheFile.stored recB ∧
    runSteps (CacheFile.stored recA) ((codePutOps recB).take 1) =
      CacheFile.corrupt ∧
    (fetchDataset "GSE1" envNoWrite CacheFile.corrupt).remoteCalled = true ∧
    fetchDataset "GSE1" envNoWrite CacheFile.absent =
      ⟨some recW, CacheFile.absent, true⟩ := by
  have h := c5_amended_inplace_write_nonfatal
  exact ⟨h.1 (CacheFile.stored recA) recB, h.2.1 recA recB,
    h.2.2.1 "GSE1" envNoWrite,
    h.2.2.2 "GSE1" envNoWrite rdW recW rfl rfl (by rfl)⟩

/-- Claim C6: with duplicate-free column names, the value column is
selected by exactly the documented heuristic — a column literally named
"VALUE" is preferred, then one named "Beta_value", and otherwise the
second column of the table (the first column after the identifier column)
is used. -/
theorem c6_value_column_heuristic (t : SampleTable)
    (hnd : (t.valCols.map Prod.fst).Nodup) :
    (∀ vs, ("VALUE", vs) ∈ t.valCols → extractValues t = Except.ok vs) ∧
    ("VALUE" ∉ t.columns →
      ∀ vs, ("Beta_value", vs) ∈ t.valCols →
        extractValues t = Except.ok vs) ∧
    ("VALUE" ∉ t.columns → "Beta_value" ∉ t.columns →
      ∀ c rest, t.valCols = c :: rest → extractValues t = Except.ok c.2) := by
  refine ⟨?_, ?_, ?_⟩
  · intro vs hm
    have hcol : "VALUE" ∈ t.columns :=
      List.mem_cons_of_mem _ (List.mem_map.mpr ⟨_, hm, rfl⟩)
    unfold extractValues
    rw [if_pos hcol]
    exact getCol_named t _ _ hnd hm
  · intro hv vs hm
    have hcol : "Beta_value" ∈ t.columns :=
      List.mem_cons_of_mem _ (List.mem_map.mpr ⟨_, hm, rfl⟩)
    unfold extractValues
    rw [if_neg hv, if_pos hcol]
    exact getCol_named t _ _ hnd hm
  · intro hv hb c rest hc
    unfold extractValues
    rw [if_neg hv, if_neg hb]
    simp [secondCol, hc]

/-- Claim C6, witness: a table carrying both a "Beta_value" column (first)
and a "VALUE" column (second) yields the "VALUE" column, and a table with
neither yields its second column. -/
theorem c6_witness :
    extractValues tPref = Except.ok [7] ∧
    extractValues tNoVal = Except.ok [9] := by
  constructor
  · exact (c6_value_column_heuristic tPref (by decide)).1 [7] (by decide)
  · exact (c6_value_column_heuristic tNoVal (by decide)).2.2 (by decide)
      (by decide) ("meth_pct", [9]) [("pval", [0])] rfl

/-- Claim C8: every combined matrix the combiner returns has a value in
every sample column for every identifier row — each column's length equals
the number of row identifiers, so there are no missing cells after
restriction. -/
theorem c8_no_missing_cells (matrices : List SampleTable)
    (mat : CombinedMatrix)
    (h : combineMethylationData matrices = Except.ok (some mat)) :
    ∀ c ∈ mat.cols, c.2.length = mat.rowIds.length :=
  (combine_ok_inv matrices mat h).2

/-- Claim C8, witness: the concrete matrix combined from `tOk1` and `tOk2`
has two values in each sample column, one per identifier row. -/
theorem c8_witness :
    (("sample_0", [(1 : ℚ), 2]) : String × List ℚ).2.length =
      (⟨["cg1", "cg2"], [("sample_0", [1, 2]), ("sample_1", [4, 3])]⟩ :
        CombinedMatrix).rowIds.length ∧
    (("sample_1", [(4 : ℚ), 3]) : String × List ℚ).2.length =
      (⟨["cg1", "cg2"], [("sample_0", [1, 2]), ("sample_1", [4, 3])]⟩ :
        CombinedMatrix).rowIds.length := by
  have h := c8_no_missing_cells [tOk1, tOk2]
    ⟨["cg1", "cg2"], [("sample_0", [1, 2]), ("sample_1", [4, 3])]⟩ (by rfl)
  exact ⟨h _ (List.mem_cons_self _ _),
    h _ (List.mem_cons_of_mem _ (List.mem_cons_self _ _))⟩

/-- Claim C9: the emitted summary field equals exactly the first 500
characters followed by the literal "..." when the summary is longer than
500 characters, and equals the summary unchanged otherwise. -/
theorem c9_summary_truncation (r : DatasetRecord) :
    (summarizeDataset r).summary = truncateSummary r.summary ∧
    (r.summary.length > 500 →
      truncateSummary r.summary =
        String.append (r.summary.take 500) "...") ∧
    (r.summary.length ≤ 500 → truncateSummary r.summary = r.summary) := by
  refine ⟨rfl, ?_, ?_⟩
  · intro h
    unfold truncateSummary
    rw [if_pos h]
  · intro h
    unfold truncateSummary
    rw [if_neg (by omega)]

/-- Claim C9, witness: a 501-character summary is emitted as its first 500
characters plus "...", and a short summary is emitted unchanged. -/
theorem c9_witness :
    (summarizeDataset rec501).summary =
      String.append (rec501.summary.take 500) "..." ∧
    (summarizeDataset recA).summary = recA.summary := by
  constructor
  · exact ((c9_summary_truncation rec501).1).trans
      ((c9_summary_truncation rec501).2.1 (by
        show (String.mk (List.replicate 501 'a')).length > 500
        rw [show (String.mk (List.replicate 501 'a')).length =
          (List.replicate 501 'a').length from rfl, List.length_replicate]
        omega))
  · exact ((c9_summary_truncation recA).1).trans
      ((c9_summary_truncation recA).2.2 (by decide))

/-- Claim C10: on a cache miss, a sample table joins the combining step
only if it has a "VALUE" or "Beta_value" column; a dataset whose tables
all lack both yields a record with no combined matrix even when sample
tables exist; and every table that reaches the combiner from the fetch
path selects a named value column, never the positional second-column
fallback. -/
theorem c10_fetch_filters_value_columns (acc : String) (env : FetchEnv)
    (rd : RemoteDataset) (hremote : env.remote = some rd)
    (hsome : rd.samples ≠ [])
    (hnoval : ∀ s ∈ rd.samples, ∀ t, s.table = some t →
      ¬ hasValueColumn t) :
    (∃ r, (fetchDataset acc env CacheFile.absent).result = some r ∧
      r.methylation = none ∧ r.samples ≠ []) ∧
    (∀ rd2 : RemoteDataset, ∀ t ∈ filteredMatrices rd2,
      extractValues t = getCol t "VALUE" ∨
      extractValues t = getCol t "Beta_value") := by
  constructor
  · have hfm : filteredMatrices rd = [] := by
      unfold filteredMatrices
      rw [List.filterMap_eq_nil]
      intro s hs
      cases hst : s.table with
      | none => rfl
      | some t =>
        show (if hasValueColumn t then some t else none) = none
        rw [if_neg (hnoval s hs t hst)]
    have hb : buildRecord acc rd = Except.ok
        ⟨acc, rd.title, rd.summary, rd.organism, rd.platform,
         rd.samples.map RemoteSample.name, none⟩ := by
      simp only [buildRecord, hfm, List.isEmpty_nil, if_true]
      rfl
    refine ⟨⟨acc, rd.title, rd.summary, rd.organism, rd.platform,
      rd.samples.map RemoteSample.name, none⟩, ?_, rfl, ?_⟩
    · show (remoteFetch acc env CacheFile.absent).result = _
      simp only [remoteFetch, hremote, hb]
    · intro hmap
      exact hsome (List.map_eq_nil.mp hmap)
  · intro rd2 t ht
    unfold filteredMatrices at ht
    obtain ⟨s, hs, hf⟩ := List.mem_filterMap.mp ht
    cases hst : s.table with
    | none => rw [hst] at hf; exact absurd hf (by simp)
    | some t2 =>
      rw [hst] at hf
      have hf' : (if hasValueColumn t2 then some t2 else none) = some t := hf
      by_cases hv : hasValueColumn t2
      · rw [if_pos hv] at hf'
        have ht2 : t2 = t := Option.some.inj hf'
        subst ht2
        unfold extractValues
        rcases hv with hv | hv
        · rw [if_pos hv]
          exact Or.inl rfl
        · by_cases hvv : "VALUE" ∈ t2.columns
          · rw [if_pos hvv]
            exact Or.inl rfl
          · rw [if_neg hvv, if_pos hv]
            exact Or.inr rfl
      · rw [if_neg hv] at hf'
        exact absurd hf' (by simp)

/-- Claim C10, witness: the concrete dataset `rdNoVal` has a table, but it
lacks both value-column names, so the fetched record has no combined
matrix. -/
theorem c10_witness :
    (∃ r, (fetchDataset "GSE2" envNoVal CacheFile.absent).result = some r ∧
      r.methylation = none ∧ r.samples ≠ []) ∧
    (∀ rd2 : RemoteDataset, ∀ t ∈ filteredMatrices rd2,
      extractValues t = getCol t "VALUE" ∨
      extractValues t = getCol t "Beta_value") := by
  refine c10_fetch_filters_value_columns "GSE2" envNoVal rdNoVal rfl
    (by decide) ?_
  intro s hs t hst
  rcases List.mem_cons.mp hs with rfl | hs'
  · have : tNoVal = t := Option.some.inj hst
    rw [← this]
    decide
  · rcases List.mem_cons.mp hs' with rfl | hs''
    · exact absurd hst (by simp)
    · exact absurd hs'' (List.not_mem_nil _)

end EpiClock
